import Mathlib

/-!
Verification of the latex2notion conversion pipeline (parser + renderers).

Strings are modelled as `List Char`.  Each regular expression used by the
source is translated into a deterministic matcher (all the patterns involved
are backtracking-free: character classes followed by a forced literal).
`finditer` is modelled as the usual leftmost, non-overlapping scan.
-/

namespace Latex2Notion

abbrev Str := List Char

/-- Python whitespace for `str.strip`, `str.lstrip` and the regex class `\s`. -/
def isSpace (c : Char) : Bool :=
  c = ' ' || c = '\t' || c = '\n' || c = '\r' || c = '\x0b' || c = '\x0c'

/-- Python `str.strip()`: drop leading and trailing whitespace. -/
def strip (s : Str) : Str :=
  ((s.dropWhile isSpace).reverse.dropWhile isSpace).reverse

/-- Python `str.split(sep)` for a one-character separator. -/
def splitOnChar (sep : Char) : Str → List Str
  | [] => [[]]
  | c :: rest =>
    if c = sep then [] :: splitOnChar sep rest
    else
      match splitOnChar sep rest with
      | [] => [[c]]
      | l :: ls => (c :: l) :: ls

/-- Python `text.split('\n')`. -/
def splitLines (s : Str) : List Str := splitOnChar '\n' s

/-- Python `sep.join(parts)`. -/
def joinWith (sep : Str) : List Str → Str
  | [] => []
  | [l] => l
  | l :: ls => l ++ sep ++ joinWith sep ls

/-- Python `'\n'.join(parts)`. -/
def joinLines (ls : List Str) : Str := joinWith ['\n'] ls

/-- Match a literal string at the front; return the remainder on success. -/
def litAt : Str → Str → Option Str
  | [], s => some s
  | _ :: _, [] => none
  | c :: cs, d :: ds => if c = d then litAt cs ds else none

/-- Match the regex fragment `\s*\{([^}]+)\}` at the front of `s`.
Returns the captured group, the number of consumed characters and the rest. -/
def matchBraceArg (s : Str) : Option (Str × Nat × Str) :=
  let ws := s.takeWhile isSpace
  match s.dropWhile isSpace with
  | c :: s2 =>
    if c = '{' then
      let content := s2.takeWhile (fun d => !(d = '}'))
      match s2.dropWhile (fun d => !(d = '}')) with
      | _ :: tail =>
        if content.isEmpty then none
        else some (content, ws.length + content.length + 2, tail)
      | [] => none
    else none
  | [] => none

/-- Match a pattern of the shape `\\cmd\s*\{([^}]+)\}` at the front of `s`
(`cmd` includes the backslash).  Returns the captured group and the length. -/
def matchCmdAt (cmd : Str) (s : Str) : Option (Str × Nat) :=
  match litAt cmd s with
  | none => none
  | some rest =>
    match matchBraceArg rest with
    | none => none
    | some (content, n, _) => some (content, cmd.length + n)

/-- Python `pattern.search(s).group(1)` for a `\\cmd\s*\{([^}]+)\}` pattern:
leftmost match, captured group. -/
def searchCmd (cmd : Str) : Str → Option Str
  | [] => none
  | c :: rest =>
    match matchCmdAt cmd (c :: rest) with
    | some (content, _) => some content
    | none => searchCmd cmd rest

/-- `pattern['item'] = \\item\s*(.*)`, applied with `.search` to a single
line (so `.*` reaches the end of the line); returns group 1. -/
def searchItem : Str → Option Str
  | [] => none
  | c :: rest =>
    match litAt ('\\' :: 'i' :: 't' :: 'e' :: 'm' :: []) (c :: rest) with
    | some r => some (r.dropWhile isSpace)
    | none => searchItem rest

/-- Match `\$\$([^$]+)\$\$` at the front of `s`. -/
def matchMathDisplayAt (s : Str) : Option (Str × Nat) :=
  match s with
  | c1 :: c2 :: s2 =>
    if c1 = '$' && c2 = '$' then
      let content := s2.takeWhile (fun d => !(d = '$'))
      if content.isEmpty then none
      else
        match s2.dropWhile (fun d => !(d = '$')) with
        | d1 :: d2 :: _ => if d1 = '$' && d2 = '$' then some (content, content.length + 4) else none
        | _ => none
    else none
  | _ => none

/-- Match `(?<!\$)\$(?!\$)([^$]+)\$(?!\$)` at the front of `s`; `prev` is the
character just before the current position (for the lookbehind). -/
def matchMathInlineAt (prev : Option Char) (s : Str) : Option (Str × Nat) :=
  match s with
  | c :: s2 =>
    if c = '$' then
      if prev = some '$' then none
      else
        let content := s2.takeWhile (fun d => !(d = '$'))
        if content.isEmpty then none
        else
          match s2.dropWhile (fun d => !(d = '$')) with
          | _ :: tail =>
            if tail.head? = some '$' then none else some (content, content.length + 2)
          | [] => none
    else none
  | [] => none

/-- First occurrence of the two-character sequence `[a, b]`; returns the text
before it and the text after it. -/
def splitFirst2 (a b : Char) : Str → Option (Str × Str)
  | [] => none
  | [_] => none
  | c :: d :: rest =>
    if c = a && d = b then some ([], rest)
    else
      match splitFirst2 a b (d :: rest) with
      | some (pre, post) => some (c :: pre, post)
      | none => none

/-- Match a lazy two-character-delimited pattern such as `\\\[(.*?)\\\]`
(with `re.DOTALL`) at the front of `s`. -/
def matchDelim2At (o1 o2 c1 c2 : Char) (s : Str) : Option (Str × Nat) :=
  match s with
  | a :: b :: s2 =>
    if a = o1 && b = o2 then
      match splitFirst2 c1 c2 s2 with
      | some (content, _) => some (content, content.length + 4)
      | none => none
    else none
  | _ => none

/-- Match `\\href\s*\{([^}]+)\}\s*\{([^}]+)\}` at the front; returns
`((url, label), length)`. -/
def matchHrefAt (s : Str) : Option ((Str × Str) × Nat) :=
  match litAt ('\\' :: 'h' :: 'r' :: 'e' :: 'f' :: []) s with
  | none => none
  | some r1 =>
    match matchBraceArg r1 with
    | none => none
    | some (url, n1, r2) =>
      match matchBraceArg r2 with
      | none => none
      | some (label, n2, _) => some ((url, label), 5 + n1 + n2)

/-- `re.finditer` for a lookaround-free pattern given by its front matcher
`m`: leftmost, non-overlapping matches with positions. -/
def finditerWith {α : Type} (m : Str → Option (α × Nat)) :
    Nat → Nat → Str → List (Nat × Nat × α)
  | 0, _, _ => []
  | _ + 1, _, [] => []
  | fuel + 1, pos, c :: rest =>
    match m (c :: rest) with
    | some (content, len) =>
      (pos, pos + len, content) :: finditerWith m fuel (pos + len) (List.drop len (c :: rest))
    | none => finditerWith m fuel (pos + 1) rest

/-- `re.finditer` for the inline-math pattern, threading the character before
the current position for the lookbehind (a successful match ends in `$`). -/
def finditerMathInline : Nat → Option Char → Nat → Str → List (Nat × Nat × Str)
  | 0, _, _, _ => []
  | _ + 1, _, _, [] => []
  | fuel + 1, prev, pos, c :: rest =>
    match matchMathInlineAt prev (c :: rest) with
    | some (content, len) =>
      (pos, pos + len, content) ::
        finditerMathInline fuel (some '$') (pos + len) (List.drop len (c :: rest))
    | none => finditerMathInline fuel (some c) (pos + 1) rest

/-! ## AST node model (`parser.py`: `NodeType`, `ASTNode`) -/

/-- `NodeType` enumeration from `parser.py`. -/
inductive NodeType where
  | DOCUMENT | SECTION | SUBSECTION | SUBSUBSECTION | PARAGRAPH
  | MATH_INLINE | MATH_DISPLAY | TEXT | BOLD | ITALIC | CODE | LINK
  | LIST_ITEMIZE | LIST_ENUMERATE | LIST_ITEM | TABLE | QUOTE | VERBATIM | CODE_BLOCK
deriving DecidableEq, Repr

/-- `ASTNode.content`: either absent, raw text, or (for table rows) a list of
cell strings. -/
inductive Content where
  | nil
  | str (s : Str)
  | cells (cs : List Str)
deriving DecidableEq, Repr

/-- `ASTNode`.  The `attributes` dict is modelled by its three used keys:
`url` (links), `end_line` and `env_name` (environment bookkeeping). -/
inductive ASTNode where
  | mk (nodeType : NodeType) (content : Content) (children : List ASTNode)
       (url : Option Str) (endLine : Option Nat) (envName : Option Str)

def ASTNode.nodeType : ASTNode → NodeType
  | .mk t _ _ _ _ _ => t

def ASTNode.content : ASTNode → Content
  | .mk _ c _ _ _ _ => c

def ASTNode.children : ASTNode → List ASTNode
  | .mk _ _ ch _ _ _ => ch

def ASTNode.url : ASTNode → Option Str
  | .mk _ _ _ u _ _ => u

def ASTNode.endLine : ASTNode → Option Nat
  | .mk _ _ _ _ e _ => e

/-- A leaf node carrying string content (the common constructor shape). -/
def leaf (t : NodeType) (s : Str) : ASTNode :=
  ASTNode.mk t (.str s) [] none none none

/-! ## Inline scanner (`LaTeXParser._parse_paragraph`) -/

/-- Tag of an entry of the `elements` list in `_parse_paragraph` (the first
component of the Python tuple). -/
inductive ElemTag where
  | math_inline | math_display | textbf | textit | code | href
deriving DecidableEq, Repr

/-- One entry of the `elements` list: tag, start offset, end offset and
captured payload (for `href` the url is the extra first group). -/
structure Elem where
  tag : ElemTag
  start : Nat
  stop : Nat
  payload : Str
  url : Str
deriving DecidableEq, Repr

def sectionCmd : Str := '\\' :: 's' :: 'e' :: 'c' :: 't' :: 'i' :: 'o' :: 'n' :: []
def subsectionCmd : Str := '\\' :: 's' :: 'u' :: 'b' :: sectionCmd.drop 1
def subsubsectionCmd : Str := '\\' :: 's' :: 'u' :: 'b' :: subsectionCmd.drop 1
def textbfCmd : Str := '\\' :: 't' :: 'e' :: 'x' :: 't' :: 'b' :: 'f' :: []
def textitCmd : Str := '\\' :: 't' :: 'e' :: 'x' :: 't' :: 'i' :: 't' :: []
def textttCmd : Str := '\\' :: 't' :: 'e' :: 'x' :: 't' :: 't' :: 't' :: []
def beginCmd : Str := '\\' :: 'b' :: 'e' :: 'g' :: 'i' :: 'n' :: []
def endCmd : Str := '\\' :: 'e' :: 'n' :: 'd' :: []

/-- The `elements` list of `_parse_paragraph` before sorting: the eight
`finditer` passes in source order. -/
def collectElements (text : Str) : List Elem :=
  let f := text.length + 1
  ((finditerWith matchMathDisplayAt f 0 text).map fun x => ⟨.math_display, x.1, x.2.1, x.2.2, []⟩)
  ++ ((finditerMathInline f none 0 text).map fun x => ⟨.math_inline, x.1, x.2.1, x.2.2, []⟩)
  ++ ((finditerWith (matchDelim2At '\\' '[' '\\' ']') f 0 text).map fun x =>
        ⟨.math_display, x.1, x.2.1, x.2.2, []⟩)
  ++ ((finditerWith (matchDelim2At '\\' '(' '\\' ')') f 0 text).map fun x =>
        ⟨.math_inline, x.1, x.2.1, x.2.2, []⟩)
  ++ ((finditerWith (matchCmdAt textbfCmd) f 0 text).map fun x => ⟨.textbf, x.1, x.2.1, x.2.2, []⟩)
  ++ ((finditerWith (matchCmdAt textitCmd) f 0 text).map fun x => ⟨.textit, x.1, x.2.1, x.2.2, []⟩)
  ++ ((finditerWith (matchCmdAt textttCmd) f 0 text).map fun x => ⟨.code, x.1, x.2.1, x.2.2, []⟩)
  ++ ((finditerWith matchHrefAt f 0 text).map fun x => ⟨.href, x.1, x.2.1, x.2.2.2, x.2.2.1⟩)

/-- Stable insertion (an element goes after all strictly earlier starts and
before equal ones already placed later in the original list). -/
def insertElem (e : Elem) : List Elem → List Elem
  | [] => [e]
  | f :: fs => if f.start < e.start then f :: insertElem e fs else e :: f :: fs

/-- Python `elements.sort(key=lambda x: x[1])`: stable sort by start offset. -/
def sortElems : List Elem → List Elem
  | [] => []
  | e :: es => insertElem e (sortElems es)

/-- The node built for one entry of the `elements` list. -/
def elemNode (e : Elem) : ASTNode :=
  match e.tag with
  | .math_inline => leaf .MATH_INLINE e.payload
  | .math_display => leaf .MATH_DISPLAY e.payload
  | .textbf => leaf .BOLD e.payload
  | .textit => leaf .ITALIC e.payload
  | .code => leaf .CODE e.payload
  | .href => ASTNode.mk .LINK (.str e.payload) [] (some e.url) none none

/-- The cursor walk of `_parse_paragraph`: emit gap text (when its strip is
non-empty), then the element's node, advancing `pos` to the match end;
finally the trailing text. -/
def buildInline (text : Str) : List Elem → Nat → List ASTNode
  | [], pos =>
    if pos < text.length then
      let remaining := text.drop pos
      if (strip remaining).isEmpty then [] else [leaf .TEXT remaining]
    else []
  | e :: es, pos =>
    let gap :=
      if pos < e.start then
        let textBefore := (text.drop pos).take (e.start - pos)
        if (strip textBefore).isEmpty then [] else [leaf .TEXT textBefore]
      else []
    gap ++ (elemNode e :: buildInline text es e.stop)

/-- `LaTeXParser._parse_paragraph`. -/
def parseParagraph (text : Str) : ASTNode :=
  let elements := sortElems (collectElements text)
  let children := buildInline text elements 0
  let children2 :=
    if children.isEmpty && !(strip text).isEmpty then [leaf .TEXT text] else children
  ASTNode.mk .PARAGRAPH .nil children2 none none none

/-! ## Environment resolver (`_parse_environment`, `_parse_list_items`,
`_parse_table`) -/

/-- The depth-counting loop of `_parse_environment`: returns the collected
body lines and the absolute index of the matching `\end` line (`none` when
there is none).  `i` is the absolute index of the first scanned line. -/
def scanEnv (envName : Str) : List Str → Nat → Nat → List Str × Option Nat
  | [], _, _ => ([], none)
  | l :: rest, i, depth =>
    if (searchCmd beginCmd l).isSome then
      let r := scanEnv envName rest (i + 1) (depth + 1)
      (l :: r.1, r.2)
    else
      match searchCmd endCmd l with
      | some name =>
        if name = envName then
          if depth = 1 then ([], some i)
          else
            let r := scanEnv envName rest (i + 1) (depth - 1)
            (l :: r.1, r.2)
        else
          let r := scanEnv envName rest (i + 1) depth
          (l :: r.1, r.2)
      | none =>
        let r := scanEnv envName rest (i + 1) depth
        (l :: r.1, r.2)

def itemizeName : Str := 'i' :: 't' :: 'e' :: 'm' :: 'i' :: 'z' :: 'e' :: []
def enumerateName : Str := 'e' :: 'n' :: 'u' :: 'm' :: 'e' :: 'r' :: 'a' :: 't' :: 'e' :: []
def quoteName : Str := 'q' :: 'u' :: 'o' :: 't' :: 'e' :: []
def verbatimName : Str := 'v' :: 'e' :: 'r' :: 'b' :: 'a' :: 't' :: 'i' :: 'm' :: []
def lstlistingName : Str := 'l' :: 's' :: 't' :: 'l' :: 'i' :: 's' :: 't' :: 'i' :: 'n' :: 'g' :: []
def tableName : Str := 't' :: 'a' :: 'b' :: 'l' :: 'e' :: []
def tabularName : Str := 't' :: 'a' :: 'b' :: 'u' :: 'l' :: 'a' :: 'r' :: []

/-- The `env_map` dict: environment name to node type (unknown names fall
back to `PARAGRAPH`). -/
def envMap (name : Str) : NodeType :=
  if name = itemizeName then .LIST_ITEMIZE
  else if name = enumerateName then .LIST_ENUMERATE
  else if name = quoteName then .QUOTE
  else if name = verbatimName then .VERBATIM
  else if name = lstlistingName then .CODE_BLOCK
  else if name = tableName then .TABLE
  else if name = tabularName then .TABLE
  else .PARAGRAPH

/-- Flush of `current_item_content` in `_parse_list_items`: zero or one
`LIST_ITEM` node whose children come from re-parsing the joined text as a
paragraph. -/
def itemFlush (cur : List Str) : List ASTNode :=
  match cur with
  | [] => []
  | _ :: _ =>
    let itemText := strip (joinLines cur)
    if itemText.isEmpty then []
    else [ASTNode.mk .LIST_ITEM .nil (parseParagraph itemText).children none none none]

/-- The line loop of `_parse_list_items`. -/
def parseListItemsGo : List Str → List Str → List ASTNode
  | [], cur => itemFlush cur
  | l :: rest, cur =>
    match searchItem l with
    | some afterItem =>
      let afterS := strip afterItem
      let newCur := if afterS.isEmpty then [] else [afterS]
      itemFlush cur ++ parseListItemsGo rest newCur
    | none => parseListItemsGo rest (cur ++ [l])

/-- `LaTeXParser._parse_list_items`. -/
def parseListItems (content : Str) : List ASTNode :=
  parseListItemsGo (splitLines content) []

/-- `LaTeXParser._parse_table`: every line containing `&` and not starting
(after strip) with `%` becomes a row node holding the trimmed cells. -/
def parseTable (content : Str) : List ASTNode :=
  (splitLines content).filterMap fun line =>
    if line.contains '&' && !(decide ((strip line).head? = some '%')) then
      some (ASTNode.mk .TEXT (.cells ((splitOnChar '&' line).map strip)) [] none none none)
    else none

/-- `LaTeXParser._parse_environment`. -/
def parseEnvironment (startLine : Nat) (envName : Str) (lines : List Str) : ASTNode :=
  let scanned := scanEnv envName (lines.drop (startLine + 1)) (startLine + 1) 1
  let endLine := scanned.2.getD (startLine + 1)
  let envContent := joinLines scanned.1
  let childNodes :=
    if envName = itemizeName || envName = enumerateName then parseListItems envContent
    else if envName = tableName || envName = tabularName then parseTable envContent
    else []
  ASTNode.mk (envMap envName) (.str envContent) childNodes none (some endLine) (some envName)

/-! ## Main scan (`LaTeXParser.parse`) -/

/-- The `while i < len(lines)` loop of `parse`.  `fuel` bounds the number of
iterations; the index strictly increases at every step so
`lines.length + 1` suffices. -/
def parseLoop (lines : List Str) : Nat → Nat → List ASTNode
  | 0, _ => []
  | fuel + 1, i =>
    if i < lines.length then
      let line := strip (lines.getD i [])
      if line.isEmpty then parseLoop lines fuel (i + 1)
      else
        match searchCmd sectionCmd line with
        | some t => leaf .SECTION t :: parseLoop lines fuel (i + 1)
        | none =>
        match searchCmd subsectionCmd line with
        | some t => leaf .SUBSECTION t :: parseLoop lines fuel (i + 1)
        | none =>
        match searchCmd subsubsectionCmd line with
        | some t => leaf .SUBSUBSECTION t :: parseLoop lines fuel (i + 1)
        | none =>
        match searchCmd beginCmd line with
        | some envName =>
          let envNode := parseEnvironment i envName lines
          envNode :: parseLoop lines fuel ((envNode.endLine.getD (i + 1)) + 1)
        | none =>
          let p := parseParagraph line
          (if p.children.isEmpty then [] else [p]) ++ parseLoop lines fuel (i + 1)
    else []

/-- `LaTeXParser.parse`. -/
def parse (latexText : Str) : ASTNode :=
  let lines := splitLines latexText
  ASTNode.mk .DOCUMENT .nil (parseLoop lines (lines.length + 1) 0) none none none

/-! ## Renderers (`handlers/`) and converter (`converter.py`) -/

/-- The string content of a node (`""` when the content is not a string,
mirroring the `isinstance(node.content, str)` guards). -/
def contentStr (n : ASTNode) : Str :=
  match n.content with
  | .str s => s
  | _ => []

/-- The cell list of a table-row node, when its content is a cell list. -/
def rowCells (n : ASTNode) : Option (List Str) :=
  match n.content with
  | .cells cs => some cs
  | _ => none

def btick : Char := Char.ofNat 96

/-- The marker glyph sequence of `convert_quote`.  The handler source file
holds the UTF-8 bytes `C3 B0 C5 B8 E2 80 99 C2 A1`, i.e. the four characters
U+00F0 U+0178 U+2019 U+00A1 (a double-encoded light-bulb emoji); Python reads
them as exactly these four characters. -/
def bulb : Str := [Char.ofNat 240, Char.ofNat 376, Char.ofNat 8217, Char.ofNat 161]

/-- `BlockHandler.convert_heading`. -/
def convertHeading (n : ASTNode) : Str :=
  match n.nodeType with
  | .SECTION => '#' :: ' ' :: contentStr n
  | .SUBSECTION => '#' :: '#' :: ' ' :: contentStr n
  | .SUBSUBSECTION => '#' :: '#' :: '#' :: ' ' :: contentStr n
  | _ => []

/-- `BlockHandler.convert_quote`: `"> 💡 "` followed by the stripped content. -/
def convertQuote (n : ASTNode) : Str :=
  '>' :: ' ' :: (bulb ++ ' ' :: strip (contentStr n))

/-- `BlockHandler.convert_code_block`: a fenced code block. -/
def convertCodeBlock (n : ASTNode) : Str :=
  btick :: btick :: btick :: '\n' :: (strip (contentStr n) ++ '\n' :: btick :: btick :: btick :: [])

/-- `MathHandler.convert`. -/
def mathConvert (n : ASTNode) : Str :=
  match n.nodeType with
  | .MATH_INLINE => '\\' :: '(' :: (contentStr n ++ '\\' :: ')' :: [])
  | .MATH_DISPLAY => '\\' :: '[' :: '\n' :: (contentStr n ++ '\n' :: '\\' :: ']' :: [])
  | _ => []

/-- The per-child rendering shared by `BlockHandler.convert_paragraph` and
`ListHandler._convert_inline_node` (unhandled kinds contribute nothing). -/
def inlineRender (c : ASTNode) : Str :=
  match c.nodeType with
  | .TEXT => contentStr c
  | .BOLD => '*' :: '*' :: (contentStr c ++ '*' :: '*' :: [])
  | .ITALIC => '*' :: (contentStr c ++ '*' :: [])
  | .CODE => btick :: (contentStr c ++ btick :: [])
  | .LINK => '[' :: (contentStr c ++ ']' :: '(' :: ((c.url.getD []) ++ ')' :: []))
  | .MATH_INLINE => mathConvert c
  | .MATH_DISPLAY => mathConvert c
  | _ => []

/-- `BlockHandler.convert_paragraph`: concatenation of the rendered children. -/
def convertParagraph (n : ASTNode) : Str :=
  (n.children.map inlineRender).flatten

/-- `ListHandler._process_item_content`: like the paragraph renderer, plus a
pass-through for a nested `PARAGRAPH` child. -/
def processItemContent (item : ASTNode) : Str :=
  (item.children.map fun c =>
    match c.nodeType with
    | .PARAGRAPH => (c.children.map inlineRender).flatten
    | _ => inlineRender c).flatten

/-- `ListHandler.convert` at explicit nesting `level` (the pipeline only
calls it with `level = 0`). -/
def listConvert (n : ASTNode) (level : Nat) : Str :=
  if n.children.isEmpty then []
  else
    let indent := (List.replicate level (' ' :: ' ' :: [])).flatten
    let items := n.children.filterMap fun item =>
      if item.nodeType = NodeType.LIST_ITEM then
        some (indent ++
          (if n.nodeType = NodeType.LIST_ENUMERATE then '1' :: '.' :: ' ' :: []
           else '-' :: ' ' :: []) ++ processItemContent item)
      else none
    joinWith ['\n'] items

/-- Escaping of `|` inside a table cell (`cell.replace('|', '\\|')`). -/
def escapeCell (cell : Str) : Str :=
  cell.flatMap fun c => if c = '|' then '\\' :: '|' :: [] else [c]

def cellSep : Str := ' ' :: '|' :: ' ' :: []

/-- One rendered table row: `'| ' + ' | '.join(escaped_cells) + ' |'`. -/
def mkRow (cells : List Str) : Str :=
  '|' :: ' ' :: (joinWith cellSep (cells.map escapeCell) ++ ' ' :: '|' :: [])

/-- The column count derived from an already-rendered first row:
`len(rows[0].split('|')) - 2`. -/
def numColsOf (row : Str) : Nat :=
  (splitOnChar '|' row).length - 2

/-- The inserted separator row for `n` columns. -/
def mkSep (n : Nat) : Str :=
  '|' :: ' ' :: (joinWith cellSep (List.replicate n ('-' :: '-' :: '-' :: [])) ++ ' ' :: '|' :: [])

/-- `TableHandler.convert`. -/
def tableConvert (n : ASTNode) : Str :=
  if n.children.isEmpty then []
  else
    let rows := n.children.filterMap fun r => (rowCells r).map mkRow
    match rows with
    | [] => []
    | r0 :: rest => joinWith ['\n'] (r0 :: mkSep (numColsOf r0) :: rest)

/-- `BlockHandler.is_heading`. -/
def isHeading (n : ASTNode) : Bool :=
  n.nodeType = NodeType.SECTION || n.nodeType = NodeType.SUBSECTION
    || n.nodeType = NodeType.SUBSUBSECTION

/-- `ListHandler.is_list_node`. -/
def isListNode (n : ASTNode) : Bool :=
  n.nodeType = NodeType.LIST_ITEMIZE || n.nodeType = NodeType.LIST_ENUMERATE

/-- `BlockHandler.is_block_environment`. -/
def isBlockEnvironment (n : ASTNode) : Bool :=
  n.nodeType = NodeType.QUOTE || n.nodeType = NodeType.VERBATIM
    || n.nodeType = NodeType.CODE_BLOCK

/-- `MathHandler.is_math_node`. -/
def isMathNode (n : ASTNode) : Bool :=
  n.nodeType = NodeType.MATH_INLINE || n.nodeType = NodeType.MATH_DISPLAY

/-- `NotionConverter._adjust_heading_level`. -/
def adjustHeadingLevel (heading : Str) (offset : Int) : Str :=
  if heading.head? = some '#' then
    let level := (heading.takeWhile (fun c => c = '#')).length
    let newLevel := max 1 (min 6 ((level : Int) + offset))
    let rest := (heading.drop level).dropWhile isSpace
    List.replicate newLevel.toNat '#' ++ ' ' :: rest
  else heading

/-- `NotionConverter._convert_node`: renderer dispatch for one top-level
node (unmatched kinds render to the empty string). -/
def convertNode (headingLevelOffset : Int) (n : ASTNode) : Str :=
  if isHeading n then
    let heading := convertHeading n
    if headingLevelOffset = 0 then heading else adjustHeadingLevel heading headingLevelOffset
  else if isListNode n then listConvert n 0
  else if n.nodeType = NodeType.TABLE then tableConvert n
  else if isBlockEnvironment n then
    if n.nodeType = NodeType.QUOTE then convertQuote n else convertCodeBlock n
  else if n.nodeType = NodeType.PARAGRAPH then convertParagraph n
  else if isMathNode n then mathConvert n
  else []

/-- `NotionConverter.convert`: join the non-empty rendered blocks with a
blank line. -/
def convertDoc (headingLevelOffset : Int) (ast : ASTNode) : Str :=
  if ast.nodeType = NodeType.DOCUMENT then
    let blocks := ast.children.filterMap fun child =>
      let b := convertNode headingLevelOffset child
      if b.isEmpty then none else some b
    joinWith ('\n' :: '\n' :: []) blocks
  else []

/-- The comment pre-pass `re.sub(r'%.*$', '', s, flags=re.MULTILINE)`:
on every line, drop everything from the first `%` on. -/
def stripComments (s : Str) : Str :=
  joinLines ((splitLines s).map fun l => l.takeWhile (fun c => !(c = '%')))

/-- Top-level `convert(latex_string, math_mode, heading_level_offset,
preserve_comments)`; `math_mode` is stored but never read by any handler, so
it is omitted. -/
def convert (latexString : Str) (headingLevelOffset : Int) (preserveComments : Bool) : Str :=
  let t := if preserveComments then latexString else stripComments latexString
  convertDoc headingLevelOffset (parse t)

/-! ## Generic helper predicates for the theorems -/

/-- `needle` is a prefix of `hay`. -/
def startsWithStr : Str → Str → Bool
  | [], _ => true
  | _ :: _, [] => false
  | c :: cs, d :: ds => c = d && startsWithStr cs ds

/-- `needle` occurs as a contiguous substring of `hay`. -/
def containsStr (needle : Str) : Str → Bool
  | [] => startsWithStr needle []
  | c :: rest => startsWithStr needle (c :: rest) || containsStr needle rest

/-- The heading level of a rendered line: the number of leading `#`. -/
def levelOf (s : Str) : Nat := (s.takeWhile (fun c => c = '#')).length

/-- Number of output lines of a rendered string. -/
def numLines (s : Str) : Nat := (splitLines s).length

/-- Number of parsed rows of a table node: the children carrying a cell
list as content (exactly those the table renderer turns into rows). -/
def parsedRowCount (n : ASTNode) : Nat := (n.children.filterMap rowCells).length

/-- A node's content is a cell sequence (the shape of a table-row node). -/
def isRowNode (n : ASTNode) : Bool :=
  match n.content with
  | .cells _ => true
  | _ => false

/-- The C9 invariant, checked recursively over a tree: `LIST_ITEM` nodes
appear only as direct children of `LIST_ITEMIZE`/`LIST_ENUMERATE` nodes,
row-shaped nodes (cell-list content) only as direct children of `TABLE`
nodes, and every child of a `TABLE` node is a row with cell content and no
children. -/
def okB : ASTNode → Bool
  | ASTNode.mk ty _ ch _ _ _ =>
    ch.all (fun c =>
      ((!(c.nodeType == NodeType.LIST_ITEM))
          || (ty == NodeType.LIST_ITEMIZE || ty == NodeType.LIST_ENUMERATE))
        && ((!(isRowNode c)) || ty == NodeType.TABLE)
        && ((!(ty == NodeType.TABLE)) || (isRowNode c && c.children.isEmpty)))
      && ch.attach.all (fun c => okB c.1)
decreasing_by
  have h1 := List.sizeOf_lt_of_mem c.2
  simp only [ASTNode.mk.sizeOf_spec]
  omega

/-- When the depth-counting scan of `_parse_environment` never finds the
matching `\end`, the collected body is the whole remaining line list. -/
theorem scanEnv_none_consumes (envName : Str) :
    ∀ (ls : List Str) (i depth : Nat),
      (scanEnv envName ls i depth).2 = none → (scanEnv envName ls i depth).1 = ls := by
  intro ls
  induction ls with
  | nil => intro i depth _; rfl
  | cons l rest ih =>
    intro i depth h
    simp only [scanEnv] at h ⊢
    by_cases hb : (searchCmd beginCmd l).isSome = true
    · simp only [hb, if_true] at h ⊢
      simpa using ih _ _ h
    · simp only [hb, if_false] at h ⊢
      rcases he : searchCmd endCmd l with _ | name
      · simp only [he] at h ⊢
        simpa using ih _ _ h
      · simp only [he] at h ⊢
        by_cases hn : name = envName
        · simp only [hn, if_true] at h ⊢
          by_cases hd : depth = 1
          · simp [hd] at h
          · simp only [hd, if_false] at h ⊢
            simpa using ih _ _ h
        · simp only [hn, if_false] at h ⊢
          simpa using ih _ _ h

end Latex2Notion

namespace Latex2Notion

/-- C2 (amended): with no matching `\end{env}`, the environment node's body
is the join of all lines after the `\begin` line, but the recorded end
position stays at `startLine + 1`, so the main scan resumes two lines after
the `\begin` line (re-processing everything from there). -/
theorem unmatched_env_consumes_remainder (envName : Str) (lines : List Str) (startLine : Nat)
    (h : (scanEnv envName (lines.drop (startLine + 1)) (startLine + 1) 1).2 = none) :
    (parseEnvironment startLine envName lines).content
        = .str (joinLines (lines.drop (startLine + 1)))
    ∧ (parseEnvironment startLine envName lines).endLine = some (startLine + 1) := by
  constructor
  · simp only [parseEnvironment, ASTNode.content]
    rw [scanEnv_none_consumes envName _ _ _ h]
  · simp only [parseEnvironment, ASTNode.endLine, h]
    rfl

theorem unmatched_env_consumes_remainder_witness :
    (parseEnvironment 0 ("quote".toList) (splitLines ("\\begin{quote}\nA\nB".toList))).content
        = .str (joinLines ((splitLines ("\\begin{quote}\nA\nB".toList)).drop 1))
    ∧ (parseEnvironment 0 ("quote".toList)
        (splitLines ("\\begin{quote}\nA\nB".toList))).endLine = some 1 :=
  unmatched_env_consumes_remainder ("quote".toList) _ 0 (by decide)

/-- C2 (counterexample to the claim as stated): on
`"\begin{quote}\nA\nB"` the quote body is `"A\nB"`, yet the main scan
resumes at line 2 and re-processes the line `"B"` as a second top-level
paragraph, so the consumed lines are *not* skipped; the conversion result
duplicates `B`. -/
theorem unmatched_env_reprocesses_lines :
    (parse ("\\begin{quote}\nA\nB".toList)).children
        = [ASTNode.mk .QUOTE (.str ("A\nB".toList)) [] none (some 1) (some ("quote".toList)),
           ASTNode.mk .PARAGRAPH .nil [leaf .TEXT ("B".toList)] none none none]
    ∧ convert ("\\begin{quote}\nA\nB".toList) 0 false
        = ('>' :: ' ' :: (bulb ++ ' ' :: ("A\nB\n\nB".toList))) :=
  ⟨rfl, rfl⟩

/-- The group `([^}]+)` of `matchBraceArg` is never empty. -/
theorem matchBraceArg_content_ne (s content : Str) (n : Nat) (r : Str)
    (h : matchBraceArg s = some (content, n, r)) : content ≠ [] := by
  simp only [matchBraceArg] at h
  rcases hd : s.dropWhile isSpace with _ | ⟨c2, s2⟩ <;> rw [hd] at h
  · simp at h
  · by_cases hc : c2 = '{'
    · simp only [hc, if_true] at h
      rcases hdw : s2.dropWhile (fun d => !(d = '}')) with _ | ⟨c3, tail⟩ <;> rw [hdw] at h
      · simp at h
      · by_cases he : (s2.takeWhile (fun d => !(d = '}'))).isEmpty
        · simp [he] at h
        · simp only [he, Bool.false_eq_true, if_false, Option.some.injEq, Prod.mk.injEq] at h
          obtain ⟨h1, -⟩ := h
          intro hn
          rw [hn] at h1
          simp [List.isEmpty_iff, h1] at he
    · simp [hc] at h

/-- A `\\cmd\s*\{([^}]+)\}` front match always captures a non-empty group. -/
theorem matchCmdAt_content_ne (cmd s t : Str) (k : Nat)
    (h : matchCmdAt cmd s = some (t, k)) : t ≠ [] := by
  simp only [matchCmdAt] at h
  rcases hl : litAt cmd s with _ | r1
  · rw [hl] at h; simp at h
  · simp only [hl] at h
    rcases hb : matchBraceArg r1 with _ | ⟨content, n, r⟩
    · simp [hb] at h
    · simp only [hb, Option.some.injEq, Prod.mk.injEq] at h
      obtain ⟨h1, -⟩ := h
      rw [← h1]
      exact matchBraceArg_content_ne r1 content n r hb

/-- A heading-style pattern search never returns an empty captured title. -/
theorem searchCmd_content_ne (cmd : Str) :
    ∀ (l t : Str), searchCmd cmd l = some t → t ≠ []
  | [], t, h => by simp [searchCmd] at h
  | c :: rest, t, h => by
    rw [searchCmd] at h
    rcases hm : matchCmdAt cmd (c :: rest) with _ | ⟨t2, k⟩
    · simp only [hm] at h
      exact searchCmd_content_ne cmd rest t h
    · simp only [hm] at h
      obtain rfl : t2 = t := by simpa using h
      exact matchCmdAt_content_ne cmd (c :: rest) t2 k hm

/-- C3 (amended): the heading patterns capture `[^}]+`, so a heading match
always carries a non-empty title; `\section{}` matches no heading pattern
and falls back to a paragraph holding the literal line. -/
theorem empty_title_falls_back_to_paragraph (l t : Str)
    (h : searchCmd sectionCmd l = some t) :
    t ≠ []
    ∧ (parse ("\\section{}".toList)).children
        = [ASTNode.mk .PARAGRAPH .nil [leaf .TEXT ("\\section{}".toList)] none none none] :=
  ⟨searchCmd_content_ne sectionCmd l t h, rfl⟩

theorem empty_title_falls_back_to_paragraph_witness :
    ("X".toList : Str) ≠ []
    ∧ (parse ("\\section{}".toList)).children
        = [ASTNode.mk .PARAGRAPH .nil [leaf .TEXT ("\\section{}".toList)] none none none] :=
  empty_title_falls_back_to_paragraph ("\\section{X}".toList) ("X".toList) (by decide)

/-- C3 (counterexample to the claim as stated): parsing `\section{}`
produces no heading node; the single child is a `PARAGRAPH` with the
literal text. -/
theorem empty_title_no_heading_counterexample :
    (parse ("\\section{}".toList)).children
        = [ASTNode.mk .PARAGRAPH .nil [leaf .TEXT ("\\section{}".toList)] none none none]
    ∧ ∀ n ∈ (parse ("\\section{}".toList)).children,
        n.nodeType ≠ NodeType.SECTION ∧ n.nodeType ≠ NodeType.SUBSECTION
          ∧ n.nodeType ≠ NodeType.SUBSUBSECTION := by
  refine ⟨rfl, ?_⟩
  intro n hn
  have : n = ASTNode.mk .PARAGRAPH .nil [leaf .TEXT ("\\section{}".toList)] none none none := by
    have h : (parse ("\\section{}".toList)).children
        = [ASTNode.mk .PARAGRAPH .nil [leaf .TEXT ("\\section{}".toList)] none none none] := rfl
    rw [h] at hn
    simpa using hn
  subst this
  exact ⟨by decide, by decide, by decide⟩

/-- C4 (counterexample to the claim as stated): text before the first
`\item` marker is *not* discarded — the body `"pre\n\item A"` yields a
leading list item `pre`, and the full pipeline renders `- pre` before
`- A`. -/
theorem preitem_text_not_discarded :
    parseListItems ("pre\n\\item A".toList)
        = [ASTNode.mk .LIST_ITEM .nil [leaf .TEXT ("pre".toList)] none none none,
           ASTNode.mk .LIST_ITEM .nil [leaf .TEXT ("A".toList)] none none none]
    ∧ convert ("\\begin{itemize}\npre\n\\item A\n\\end{itemize}".toList) 0 false
        = "- pre\n- A".toList :=
  ⟨rfl, rfl⟩

/-- Lines without an `\item` match accumulate into the pending item
content, in order, without being emitted. -/
theorem parseListItemsGo_no_marker_accum :
    ∀ (mid : List Str), (∀ l ∈ mid, searchItem l = none) →
      ∀ (rest2 cur : List Str),
        parseListItemsGo (mid ++ rest2) cur = parseListItemsGo rest2 (cur ++ mid)
  | [], _, rest2, cur => by rw [List.nil_append, List.append_nil]
  | l :: mid, h, rest2, cur => by
    rw [List.cons_append, parseListItemsGo]
    simp only [h l (List.mem_cons_self l mid)]
    rw [parseListItemsGo_no_marker_accum mid
      (fun x hx => h x (List.mem_cons_of_mem l hx)) rest2 (cur ++ [l]),
      List.append_assoc]
    rfl

/-- Flushing gathered lines whose joined, stripped text is blank emits no
item. -/
theorem itemFlush_blank :
    ∀ (cur : List Str), strip (joinLines cur) = [] → itemFlush cur = []
  | [], _ => rfl
  | l :: ls, h => by
    simp only [itemFlush]
    rw [if_pos (by rw [h]; rfl)]

/-- Flushing gathered lines with non-blank joined text emits one
`LIST_ITEM` whose children come from re-parsing the stripped text as a
paragraph. -/
theorem itemFlush_nonblank :
    ∀ (cur : List Str), strip (joinLines cur) ≠ [] →
      itemFlush cur = [ASTNode.mk .LIST_ITEM .nil
        (parseParagraph (strip (joinLines cur))).children none none none]
  | [], h => absurd rfl h
  | l :: ls, h => by
    simp only [itemFlush]
    rw [if_neg (by simpa [List.isEmpty_iff] using h)]

/-- C4 (amended): for every list body whose line split is some marker-free
lines `pre`, then a first `\item`-matching line, then `rest`: the `pre`
lines are gathered and flushed as at most one leading item (none when their
joined text strips to blank), the new item starts from the marker's
captured group alone — any text before `\item` on the marker line itself is
discarded — and in general marker-free lines accumulate into the pending
item and every flushed item's children come from re-parsing the gathered
text as a paragraph (full inline-formatting support). -/
theorem list_item_segmentation (content : Str) (pre : List Str) (line after : Str)
    (rest : List Str)
    (hsplit : splitLines content = pre ++ line :: rest)
    (hpre : ∀ l ∈ pre, searchItem l = none)
    (hline : searchItem line = some after) :
    parseListItems content
        = itemFlush pre
          ++ parseListItemsGo rest (if (strip after).isEmpty then [] else [strip after])
    ∧ (∀ (mid : List Str), (∀ l ∈ mid, searchItem l = none) →
        ∀ (rest2 cur : List Str),
          parseListItemsGo (mid ++ rest2) cur = parseListItemsGo rest2 (cur ++ mid))
    ∧ (∀ cur : List Str, strip (joinLines cur) = [] → itemFlush cur = [])
    ∧ (∀ cur : List Str, strip (joinLines cur) ≠ [] →
        itemFlush cur = [ASTNode.mk .LIST_ITEM .nil
          (parseParagraph (strip (joinLines cur))).children none none none]) := by
  refine ⟨?_, parseListItemsGo_no_marker_accum, itemFlush_blank, itemFlush_nonblank⟩
  show parseListItemsGo (splitLines content) [] = _
  rw [hsplit, parseListItemsGo_no_marker_accum pre hpre (line :: rest) [],
    List.nil_append, parseListItemsGo]
  simp only [hline]

theorem list_item_segmentation_witness :
    parseListItems ("pre\n\nx \\item A\ncont\n\\item B".toList)
        = itemFlush ["pre".toList, "".toList]
          ++ parseListItemsGo ["cont".toList, "\\item B".toList]
              (if (strip ("A".toList)).isEmpty then [] else [strip ("A".toList)])
    ∧ (∀ (mid : List Str), (∀ l ∈ mid, searchItem l = none) →
        ∀ (rest2 cur : List Str),
          parseListItemsGo (mid ++ rest2) cur = parseListItemsGo rest2 (cur ++ mid))
    ∧ (∀ cur : List Str, strip (joinLines cur) = [] → itemFlush cur = [])
    ∧ (∀ cur : List Str, strip (joinLines cur) ≠ [] →
        itemFlush cur = [ASTNode.mk .LIST_ITEM .nil
          (parseParagraph (strip (joinLines cur))).children none none none]) :=
  list_item_segmentation ("pre\n\nx \\item A\ncont\n\\item B".toList)
    ["pre".toList, "".toList] ("x \\item A".toList) ("A".toList)
    ["cont".toList, "\\item B".toList] (by decide) (by decide) (by decide)

/-- C7: for the input `"\section{T}\n% hidden\nBody"`, conversion with the
default `preserveComments = false` yields an output without the substring
`"hidden"`, while `preserveComments = true` keeps it. -/
theorem comment_stripping_hides_comment_text :
    containsStr ("hidden".toList) (convert ("\\section{T}\n% hidden\nBody".toList) 0 false) = false
    ∧ containsStr ("hidden".toList) (convert ("\\section{T}\n% hidden\nBody".toList) 0 true) = true := by
  exact ⟨rfl, rfl⟩

/-- C8: on the paragraph text `\(x$y\) $z$` the generic-dollar inline-math
pattern (span 3–9) and the `\(...\)` pattern (span 0–7) both match with
overlapping spans; the merge keeps both (sorted by start offset) and the
scanner emits one node per match. -/
theorem overlapping_inline_matches_both_emitted :
    collectElements ("\\(x$y\\) $z$".toList) =
      [⟨.math_inline, 3, 9, "y\\) ".toList, []⟩, ⟨.math_inline, 0, 7, "x$y".toList, []⟩]
    ∧ sortElems (collectElements ("\\(x$y\\) $z$".toList)) =
      [⟨.math_inline, 0, 7, "x$y".toList, []⟩, ⟨.math_inline, 3, 9, "y\\) ".toList, []⟩]
    ∧ (3 : Nat) < 7
    ∧ (parseParagraph ("\\(x$y\\) $z$".toList)).children =
      [leaf .MATH_INLINE ("x$y".toList), leaf .MATH_INLINE ("y\\) ".toList),
       leaf .TEXT ("z$".toList)] := by
  exact ⟨rfl, rfl, by norm_num, rfl⟩

end Latex2Notion

namespace Latex2Notion

/-! ## C5: heading-level clamping -/

theorem takeWhileHash_replicate (n : Nat) (rest : Str) :
    (List.replicate n '#' ++ ' ' :: rest).takeWhile (fun c => c = '#')
      = List.replicate n '#' := by
  induction n with
  | zero => simp [List.takeWhile_cons]
  | succ k ih => simp [List.replicate_succ, List.takeWhile_cons, ih]

theorem levelOf_replicate_append (n : Nat) (rest : Str) :
    levelOf (List.replicate n '#' ++ ' ' :: rest) = n := by
  simp [levelOf, takeWhileHash_replicate]

/-- `_adjust_heading_level` on a well-formed heading of level `k ≥ 1`
always lands in levels 1–6. -/
theorem adjust_on_heading (k : Nat) (hk : 1 ≤ k) (content : Str) (offset : Int) :
    1 ≤ levelOf (adjustHeadingLevel (List.replicate k '#' ++ ' ' :: content) offset)
    ∧ levelOf (adjustHeadingLevel (List.replicate k '#' ++ ' ' :: content) offset) ≤ 6 := by
  have hhead : (List.replicate k '#' ++ ' ' :: content).head? = some '#' := by
    cases k with
    | zero => omega
    | succ m => simp [List.replicate_succ]
  rw [adjustHeadingLevel, if_pos hhead, takeWhileHash_replicate, List.length_replicate]
  rw [levelOf_replicate_append]
  have h1 : (1 : Int) ≤ max 1 (min 6 ((k : Int) + offset)) := le_max_left _ _
  have h2 : max 1 (min 6 ((k : Int) + offset)) ≤ 6 :=
    max_le (by norm_num) (min_le_left _ _)
  omega

/-- C5: for every heading node and every integer offset, the rendered
heading's level stays saturated in 1–6; in particular a level-1 heading
with offset −5 yields level 1 and a level-3 heading with offset +10 yields
level 6. -/
theorem heading_offset_clamps (ty : NodeType) (content : Str) (offset : Int)
    (h : ty = NodeType.SECTION ∨ ty = NodeType.SUBSECTION ∨ ty = NodeType.SUBSUBSECTION) :
    (1 ≤ levelOf (convertNode offset (ASTNode.mk ty (.str content) [] none none none))
      ∧ levelOf (convertNode offset (ASTNode.mk ty (.str content) [] none none none)) ≤ 6)
    ∧ levelOf (convertNode (-5) (leaf .SECTION ("T".toList))) = 1
    ∧ levelOf (convertNode 10 (leaf .SUBSUBSECTION ("T".toList))) = 6 := by
  refine ⟨?_, by decide, by decide⟩
  rcases h with rfl | rfl | rfl
  · have he : convertNode offset (ASTNode.mk .SECTION (.str content) [] none none none)
        = (if offset = 0 then List.replicate 1 '#' ++ ' ' :: content
           else adjustHeadingLevel (List.replicate 1 '#' ++ ' ' :: content) offset) := rfl
    rw [he]
    by_cases h0 : offset = 0
    · rw [if_pos h0, levelOf_replicate_append]; omega
    · rw [if_neg h0]; exact adjust_on_heading 1 (by norm_num) content offset
  · have he : convertNode offset (ASTNode.mk .SUBSECTION (.str content) [] none none none)
        = (if offset = 0 then List.replicate 2 '#' ++ ' ' :: content
           else adjustHeadingLevel (List.replicate 2 '#' ++ ' ' :: content) offset) := rfl
    rw [he]
    by_cases h0 : offset = 0
    · rw [if_pos h0, levelOf_replicate_append]; omega
    · rw [if_neg h0]; exact adjust_on_heading 2 (by norm_num) content offset
  · have he : convertNode offset (ASTNode.mk .SUBSUBSECTION (.str content) [] none none none)
        = (if offset = 0 then List.replicate 3 '#' ++ ' ' :: content
           else adjustHeadingLevel (List.replicate 3 '#' ++ ' ' :: content) offset) := rfl
    rw [he]
    by_cases h0 : offset = 0
    · rw [if_pos h0, levelOf_replicate_append]; omega
    · rw [if_neg h0]; exact adjust_on_heading 3 (by norm_num) content offset

theorem heading_offset_clamps_witness :
    (1 ≤ levelOf (convertNode 7 (ASTNode.mk .SECTION (.str ("T".toList)) [] none none none))
      ∧ levelOf (convertNode 7 (ASTNode.mk .SECTION (.str ("T".toList)) [] none none none)) ≤ 6)
    ∧ levelOf (convertNode (-5) (leaf .SECTION ("T".toList))) = 1
    ∧ levelOf (convertNode 10 (leaf .SUBSUBSECTION ("T".toList))) = 6 :=
  heading_offset_clamps .SECTION ("T".toList) 7 (Or.inl rfl)

end Latex2Notion

namespace Latex2Notion

/-! ## C6 / C10: table rendering -/

theorem splitOnChar_ne_nil (sep : Char) : ∀ (l : Str), splitOnChar sep l ≠ []
  | [] => by simp [splitOnChar]
  | c :: rest => by
    rw [splitOnChar]
    by_cases hc : c = sep
    · simp [hc]
    · simp only [hc, if_false]
      rcases hr : splitOnChar sep rest with _ | ⟨l, ls⟩ <;> simp

theorem splitOnChar_eq_single (sep : Char) :
    ∀ (l : Str), sep ∉ l → splitOnChar sep l = [l]
  | [], _ => rfl
  | c :: rest, h => by
    have hc : ¬ c = sep := fun hcc => h (hcc ▸ List.mem_cons_self c rest)
    rw [splitOnChar, if_neg hc, splitOnChar_eq_single sep rest (fun hm => h (List.mem_cons_of_mem c hm))]

theorem splitOnChar_cons_sep (sep : Char) (r : Str) :
    splitOnChar sep (sep :: r) = [] :: splitOnChar sep r := by
  rw [splitOnChar, if_pos rfl]

theorem length_splitOnChar_cons_ne (sep c : Char) (hc : ¬ c = sep) (t : Str) :
    (splitOnChar sep (c :: t)).length = (splitOnChar sep t).length := by
  rw [splitOnChar, if_neg hc]
  rcases hr : splitOnChar sep t with _ | ⟨l, ls⟩
  · exact absurd hr (splitOnChar_ne_nil sep t)
  · simp

theorem length_splitOnChar_append (sep : Char) :
    ∀ (x : Str), sep ∉ x → ∀ (t : Str),
      (splitOnChar sep (x ++ t)).length = (splitOnChar sep t).length
  | [], _, t => rfl
  | c :: x, h, t => by
    have hc : ¬ c = sep := fun hcc => h (hcc ▸ List.mem_cons_self c x)
    rw [List.cons_append, length_splitOnChar_cons_ne sep c hc,
      length_splitOnChar_append sep x (fun hm => h (List.mem_cons_of_mem c hm)) t]

theorem splitOnChar_append_sep (sep : Char) :
    ∀ (x : Str), sep ∉ x → ∀ (r : Str),
      splitOnChar sep (x ++ sep :: r) = x :: splitOnChar sep r
  | [], _, r => by simpa using splitOnChar_cons_sep sep r
  | c :: x, h, r => by
    have hc : ¬ c = sep := fun hcc => h (hcc ▸ List.mem_cons_self c x)
    rw [List.cons_append, splitOnChar, if_neg hc,
      splitOnChar_append_sep sep x (fun hm => h (List.mem_cons_of_mem c hm)) r]

/-- Splitting a separator-join of separator-free pieces recovers the pieces. -/
theorem splitOnChar_joinWith (sep : Char) :
    ∀ (L : List Str), L ≠ [] → (∀ x ∈ L, sep ∉ x) →
      splitOnChar sep (joinWith [sep] L) = L
  | [], h, _ => absurd rfl h
  | [l], _, hmem => by
    rw [joinWith, splitOnChar_eq_single sep l (hmem l (List.mem_singleton_self l))]
  | l :: l2 :: t, _, hmem => by
    have h1 : joinWith [sep] (l :: l2 :: t) = l ++ sep :: joinWith [sep] (l2 :: t) := by
      show l ++ [sep] ++ joinWith [sep] (l2 :: t) = l ++ sep :: joinWith [sep] (l2 :: t)
      rw [List.append_assoc]
      rfl
    rw [h1, splitOnChar_append_sep sep l (hmem l (List.mem_cons_self l _)),
      splitOnChar_joinWith sep (l2 :: t) (List.cons_ne_nil l2 t)
        (fun x hx => hmem x (List.mem_cons_of_mem l hx))]

theorem escapeCell_no_newline (cell : Str) (h : '\n' ∉ cell) : '\n' ∉ escapeCell cell := by
  simp only [escapeCell, List.mem_flatMap]
  rintro ⟨a, ha, hin⟩
  by_cases hp : a = '|'
  · rw [if_pos hp] at hin
    exact absurd hin (by decide)
  · rw [if_neg hp, List.mem_singleton] at hin
    exact h (hin ▸ ha)

theorem not_mem_joinWith (c : Char) (sep : Str) (hsep : c ∉ sep) :
    ∀ (L : List Str), (∀ x ∈ L, c ∉ x) → c ∉ joinWith sep L
  | [], _ => by simp [joinWith]
  | [l], hmem => by
    rw [joinWith]; exact hmem l (List.mem_singleton_self l)
  | l :: l2 :: t, hmem => by
    have h1 : joinWith sep (l :: l2 :: t) = l ++ sep ++ joinWith sep (l2 :: t) := rfl
    rw [h1]
    simp only [List.mem_append]
    rintro ((h2 | h2) | h2)
    · exact hmem l (List.mem_cons_self l _) h2
    · exact hsep h2
    · exact not_mem_joinWith c sep hsep (l2 :: t)
        (fun x hx => hmem x (List.mem_cons_of_mem l hx)) h2

theorem mkRow_no_newline (cs : List Str) (h : ∀ cell ∈ cs, '\n' ∉ cell) :
    '\n' ∉ mkRow cs := by
  intro hmem
  rcases List.mem_cons.mp hmem with h1 | hmem2
  · exact absurd h1 (by decide)
  rcases List.mem_cons.mp hmem2 with h1 | hmem3
  · exact absurd h1 (by decide)
  rcases List.mem_append.mp hmem3 with h1 | h1
  · exact not_mem_joinWith '\n' cellSep (by decide) (cs.map escapeCell)
      (by
        intro x hx
        rw [List.mem_map] at hx
        obtain ⟨cell, hcell, rfl⟩ := hx
        exact escapeCell_no_newline cell (h cell hcell)) h1
  · exact absurd h1 (by decide)

theorem mkSep_no_newline (n : Nat) : '\n' ∉ mkSep n := by
  intro hmem
  rcases List.mem_cons.mp hmem with h1 | hmem2
  · exact absurd h1 (by decide)
  rcases List.mem_cons.mp hmem2 with h1 | hmem3
  · exact absurd h1 (by decide)
  rcases List.mem_append.mp hmem3 with h1 | h1
  · exact not_mem_joinWith '\n' cellSep (by decide) (List.replicate n ('-' :: '-' :: '-' :: []))
      (by
        intro x hx
        rw [List.eq_of_mem_replicate hx]
        decide) h1
  · exact absurd h1 (by decide)

end Latex2Notion

namespace Latex2Notion

/-- `TableHandler.convert` on a node with at least one parsed row: the
rendered first row, then the separator, then the remaining rendered rows,
joined by newlines. -/
theorem tableConvert_cons (n : ASTNode) (cs0 : List Str) (csr : List (List Str))
    (hf : n.children.filterMap rowCells = cs0 :: csr) :
    tableConvert n = joinWith ['\n']
      (mkRow cs0 :: mkSep (numColsOf (mkRow cs0)) :: csr.map mkRow) := by
  have hrows : n.children.filterMap (fun r => (rowCells r).map mkRow)
      = mkRow cs0 :: csr.map mkRow := by
    rw [← List.map_filterMap, hf, List.map_cons]
  have hne : n.children.isEmpty = false := by
    rcases hch : n.children with _ | ⟨a, as⟩
    · rw [hch] at hf
      exact absurd hf (by simp)
    · rfl
  simp only [tableConvert, hne, Bool.false_eq_true, if_false, hrows]

/-- C6: a table node with `rowCount ≥ 1` parsed rows renders to exactly
`rowCount + 1` lines (the separator is inserted after the first row); with
0 parsed rows it renders to the empty string (which the dispatch drops). -/
theorem table_output_line_count (content : Content) (ch : List ASTNode)
    (hnl : ∀ r ∈ ch, ∀ cs, rowCells r = some cs → ∀ cell ∈ cs, '\n' ∉ cell) :
    (1 ≤ parsedRowCount (ASTNode.mk .TABLE content ch none none none) →
      numLines (tableConvert (ASTNode.mk .TABLE content ch none none none))
        = parsedRowCount (ASTNode.mk .TABLE content ch none none none) + 1)
    ∧ (parsedRowCount (ASTNode.mk .TABLE content ch none none none) = 0 →
      tableConvert (ASTNode.mk .TABLE content ch none none none) = []) := by
  have hch : (ASTNode.mk .TABLE content ch none none none).children = ch := rfl
  have hcells : ∀ cs ∈ ch.filterMap rowCells, ∀ cell ∈ cs, '\n' ∉ cell := by
    intro cs hcs
    rw [List.mem_filterMap] at hcs
    obtain ⟨r, hr, hrc⟩ := hcs
    exact hnl r hr cs hrc
  constructor
  · intro hge
    have hpos : ch.filterMap rowCells ≠ [] := by
      intro hnil
      rw [parsedRowCount, hch, hnil] at hge
      simp at hge
    obtain ⟨cs0, csr, hf⟩ := List.exists_cons_of_ne_nil hpos
    rw [tableConvert_cons _ cs0 csr (hch ▸ hf)]
    have hL : ∀ x ∈ mkRow cs0 :: mkSep (numColsOf (mkRow cs0)) :: csr.map mkRow, '\n' ∉ x := by
      intro x hx
      rcases List.mem_cons.mp hx with rfl | hx2
      · exact mkRow_no_newline cs0 (hcells cs0 (hf ▸ List.mem_cons_self cs0 csr))
      rcases List.mem_cons.mp hx2 with rfl | hx3
      · exact mkSep_no_newline _
      · rw [List.mem_map] at hx3
        obtain ⟨cs, hcsm, rfl⟩ := hx3
        exact mkRow_no_newline cs (hcells cs (hf ▸ List.mem_cons_of_mem cs0 hcsm))
    rw [numLines, splitLines, splitOnChar_joinWith '\n' _ (List.cons_ne_nil _ _) hL]
    rw [parsedRowCount, hch, hf]
    simp
  · intro h0
    have hf : ch.filterMap rowCells = [] := by
      rw [parsedRowCount, hch] at h0
      exact List.length_eq_zero.mp h0
    have hrows : ch.filterMap (fun r => (rowCells r).map mkRow) = [] := by
      rw [← List.map_filterMap, hf, List.map_nil]
    simp only [tableConvert, ASTNode.children, hrows]
    split <;> rfl

theorem table_output_line_count_witness :
    (1 ≤ parsedRowCount (ASTNode.mk .TABLE .nil
        [ASTNode.mk .TEXT (.cells [('A' :: []), ('B' :: [])]) [] none none none,
         ASTNode.mk .TEXT (.cells [('C' :: [])]) [] none none none] none none none) →
      numLines (tableConvert (ASTNode.mk .TABLE .nil
        [ASTNode.mk .TEXT (.cells [('A' :: []), ('B' :: [])]) [] none none none,
         ASTNode.mk .TEXT (.cells [('C' :: [])]) [] none none none] none none none))
        = parsedRowCount (ASTNode.mk .TABLE .nil
        [ASTNode.mk .TEXT (.cells [('A' :: []), ('B' :: [])]) [] none none none,
         ASTNode.mk .TEXT (.cells [('C' :: [])]) [] none none none] none none none) + 1)
    ∧ (parsedRowCount (ASTNode.mk .TABLE .nil
        [ASTNode.mk .TEXT (.cells [('A' :: []), ('B' :: [])]) [] none none none,
         ASTNode.mk .TEXT (.cells [('C' :: [])]) [] none none none] none none none) = 0 →
      tableConvert (ASTNode.mk .TABLE .nil
        [ASTNode.mk .TEXT (.cells [('A' :: []), ('B' :: [])]) [] none none none,
         ASTNode.mk .TEXT (.cells [('C' :: [])]) [] none none none] none none none) = []) :=
  table_output_line_count .nil
    [ASTNode.mk .TEXT (.cells [('A' :: []), ('B' :: [])]) [] none none none,
     ASTNode.mk .TEXT (.cells [('C' :: [])]) [] none none none] (by decide)

end Latex2Notion

namespace Latex2Notion

theorem escapeCell_eq_self : ∀ (cell : Str), '|' ∉ cell → escapeCell cell = cell
  | [], _ => rfl
  | c :: cs, h => by
    have hc : ¬ c = '|' := fun hcc => h (hcc ▸ List.mem_cons_self c cs)
    simp only [escapeCell, List.flatMap_cons, if_neg hc]
    show c :: cs.flatMap _ = c :: cs
    have := escapeCell_eq_self cs (fun hm => h (List.mem_cons_of_mem c hm))
    rw [escapeCell] at this
    rw [this]

theorem map_escapeCell_eq : ∀ (cs : List Str), (∀ cell ∈ cs, '|' ∉ cell) →
    cs.map escapeCell = cs
  | [], _ => rfl
  | a :: as, h => by
    rw [List.map_cons, escapeCell_eq_self a (h a (List.mem_cons_self a as)),
      map_escapeCell_eq as (fun x hx => h x (List.mem_cons_of_mem a hx))]

/-- Length of the `'|'`-split of `' | '.join(pieces) ++ ' |'` for pipe-free
pieces: one entry per piece plus the final empty entry. -/
theorem length_split_joinCells : ∀ (pieces : List Str), pieces ≠ [] →
    (∀ x ∈ pieces, '|' ∉ x) →
    (splitOnChar '|' (joinWith cellSep pieces ++ ' ' :: '|' :: [])).length
      = pieces.length + 1
  | [], h, _ => absurd rfl h
  | [p], _, hmem => by
    rw [joinWith, length_splitOnChar_append '|' p (hmem p (List.mem_singleton_self p))]
    rfl
  | p :: p2 :: t, _, hmem => by
    have h1 : joinWith cellSep (p :: p2 :: t) ++ ' ' :: '|' :: []
        = p ++ (' ' :: '|' :: ' ' :: (joinWith cellSep (p2 :: t) ++ ' ' :: '|' :: [])) := by
      show (p ++ cellSep ++ joinWith cellSep (p2 :: t)) ++ ' ' :: '|' :: [] = _
      rw [List.append_assoc, List.append_assoc]
      rfl
    rw [h1, length_splitOnChar_append '|' p (hmem p (List.mem_cons_self p _)),
      length_splitOnChar_cons_ne '|' ' ' (by decide), splitOnChar_cons_sep,
      List.length_cons,
      length_splitOnChar_cons_ne '|' ' ' (by decide),
      length_split_joinCells (p2 :: t) (List.cons_ne_nil p2 t)
        (fun x hx => hmem x (List.mem_cons_of_mem p hx))]
    simp

/-- The column count the table handler derives from a rendered first row
whose cells hold no `'|'` equals the number of cells. -/
theorem numColsOf_mkRow (cells : List Str) (hne : cells ≠ [])
    (h : ∀ cell ∈ cells, '|' ∉ cell) :
    numColsOf (mkRow cells) = cells.length := by
  rw [numColsOf, mkRow, map_escapeCell_eq cells h, splitOnChar_cons_sep,
    List.length_cons, length_splitOnChar_cons_ne '|' ' ' (by decide),
    length_split_joinCells cells hne h]
  omega

/-- C10: the separator has one `---` entry per first-row cell when no cell
contains `'|'`; a `'|'` inside a first-row cell inflates the derived column
count (the escaping `\|` still splits), e.g. cells `["a|b", "c"]` give 3
columns for 2 cells. -/
theorem separator_column_count (cells : List Str) (hne : cells ≠ [])
    (h : ∀ cell ∈ cells, '|' ∉ cell) :
    (numColsOf (mkRow cells) = cells.length
      ∧ tableConvert (ASTNode.mk .TABLE .nil
          [ASTNode.mk .TEXT (.cells cells) [] none none none] none none none)
        = joinWith ['\n'] [mkRow cells, mkSep cells.length])
    ∧ numColsOf (mkRow [("a|b".toList), ("c".toList)]) = 3
    ∧ ([("a|b".toList), ("c".toList)] : List Str).length = 2 := by
  refine ⟨⟨numColsOf_mkRow cells hne h, ?_⟩, by decide, by decide⟩
  rw [tableConvert_cons (ASTNode.mk .TABLE .nil
        [ASTNode.mk .TEXT (.cells cells) [] none none none] none none none) cells [] rfl,
    numColsOf_mkRow cells hne h]
  rfl

theorem separator_column_count_witness :
    (numColsOf (mkRow [('A' :: []), ('B' :: [])]) = 2
      ∧ tableConvert (ASTNode.mk .TABLE .nil
          [ASTNode.mk .TEXT (.cells [('A' :: []), ('B' :: [])]) [] none none none]
          none none none)
        = joinWith ['\n'] [mkRow [('A' :: []), ('B' :: [])], mkSep 2])
    ∧ numColsOf (mkRow [("a|b".toList), ("c".toList)]) = 3
    ∧ ([("a|b".toList), ("c".toList)] : List Str).length = 2 :=
  separator_column_count [('A' :: []), ('B' :: [])] (by decide) (by decide)

end Latex2Notion

namespace Latex2Notion

/-! ## C1: plain text round-trip -/

theorem mem_of_mem_strip {c : Char} {s : Str} (h : c ∈ strip s) : c ∈ s := by
  have h0 : strip s = List.rdropWhile isSpace (s.dropWhile isSpace) := rfl
  rw [h0] at h
  have h1 := (List.rdropWhile_prefix isSpace (s.dropWhile isSpace)).sublist
  have h2 := (List.dropWhile_suffix (l := s) isSpace).sublist
  exact h2.mem (h1.mem h)

theorem strip_idem (s : Str) : strip (strip s) = strip s := by
  have key : (strip s).dropWhile isSpace = strip s := by
    rw [List.dropWhile_eq_self_iff]
    intro hl
    obtain ⟨r, hr⟩ := List.rdropWhile_prefix isSpace (s.dropWhile isSpace)
    have hr2 : strip s ++ r = s.dropWhile isSpace := hr
    have hlt : 0 < (s.dropWhile isSpace).length := by
      rw [← hr2, List.length_append]
      omega
    have hget : (s.dropWhile isSpace).get ⟨0, hlt⟩ = (strip s).get ⟨0, hl⟩ := by
      rw [List.get_eq_getElem, List.get_eq_getElem, List.getElem_of_eq hr2.symm hlt]
      exact List.getElem_append_left hl
    rw [← hget]
    exact List.dropWhile_get_zero_not isSpace s hlt
  show List.rdropWhile isSpace ((strip s).dropWhile isSpace) = strip s
  rw [key]
  show List.rdropWhile isSpace (List.rdropWhile isSpace (s.dropWhile isSpace)) = _
  exact List.rdropWhile_idempotent _ _

theorem takeWhile_eq_self_of_all (p : Char → Bool) :
    ∀ (l : Str), (∀ c ∈ l, p c = true) → l.takeWhile p = l
  | [], _ => rfl
  | c :: rest, h => by
    rw [List.takeWhile_cons, h c (List.mem_cons_self c rest)]
    simp [takeWhile_eq_self_of_all p rest (fun x hx => h x (List.mem_cons_of_mem c hx))]

theorem stripComments_eq_self (s : Str) (hp : '%' ∉ s) (hn : '\n' ∉ s) :
    stripComments s = s := by
  rw [stripComments, splitLines, splitOnChar_eq_single '\n' s hn, List.map_cons, List.map_nil,
    takeWhile_eq_self_of_all _ s (by
      intro c hc
      simp only [Bool.not_eq_true', decide_eq_false_iff_not]
      exact fun hcc => hp (hcc ▸ hc))]
  rfl

/-! Gate lemmas: each inline matcher needs a `\` or `$` at the match start. -/

theorem matchMathDisplayAt_gate (c : Char) (t : Str) (hc : ¬ c = '$') :
    matchMathDisplayAt (c :: t) = none := by
  cases t with
  | nil => rfl
  | cons d t2 => simp [matchMathDisplayAt, hc]

theorem matchMathInlineAt_gate (prev : Option Char) (c : Char) (t : Str) (hc : ¬ c = '$') :
    matchMathInlineAt prev (c :: t) = none := by
  simp [matchMathInlineAt, hc]

theorem matchDelim2At_gate (o2 c1 c2 : Char) (c : Char) (t : Str) (hc : ¬ c = '\\') :
    matchDelim2At '\\' o2 c1 c2 (c :: t) = none := by
  cases t with
  | nil => rfl
  | cons d t2 => simp [matchDelim2At, hc]

theorem matchCmdAt_gate (cs : Str) (c : Char) (t : Str) (hc : ¬ c = '\\') :
    matchCmdAt ('\\' :: cs) (c :: t) = none := by
  have hlit : litAt ('\\' :: cs) (c :: t) = none := by
    rw [litAt, if_neg (fun h => hc h.symm)]
  rw [matchCmdAt, hlit]

theorem matchHrefAt_gate (c : Char) (t : Str) (hc : ¬ c = '\\') :
    matchHrefAt (c :: t) = none := by
  have hlit : litAt ('\\' :: 'h' :: 'r' :: 'e' :: 'f' :: []) (c :: t) = none := by
    rw [litAt, if_neg (fun h => hc h.symm)]
  rw [matchHrefAt, hlit]

theorem searchCmd_eq_none (cmd : Str) (hcmd : cmd.head? = some '\\') :
    ∀ (l : Str), '\\' ∉ l → searchCmd cmd l = none
  | [], _ => rfl
  | c :: rest, h => by
    have hcne : ¬ c = '\\' := fun hcc => h (hcc ▸ List.mem_cons_self c rest)
    have hm : matchCmdAt cmd (c :: rest) = none := by
      cases cmd with
      | nil => exact absurd hcmd (by simp)
      | cons c0 cs =>
        obtain rfl : c0 = '\\' := by simpa using hcmd
        exact matchCmdAt_gate cs c rest hcne
    rw [searchCmd, hm]
    exact searchCmd_eq_none cmd hcmd rest (fun hm2 => h (List.mem_cons_of_mem c hm2))

theorem finditerWith_eq_nil {α : Type} (m : Str → Option (α × Nat))
    (hm : ∀ (c : Char) (t : Str), ¬ c = '\\' → ¬ c = '$' → m (c :: t) = none) :
    ∀ (fuel pos : Nat) (l : Str), (∀ c ∈ l, ¬ c = '\\' ∧ ¬ c = '$') →
      finditerWith m fuel pos l = []
  | 0, _, _, _ => rfl
  | _ + 1, _, [], _ => rfl
  | fuel + 1, pos, c :: rest, h => by
    have hc := h c (List.mem_cons_self c rest)
    rw [finditerWith, hm c rest hc.1 hc.2]
    exact finditerWith_eq_nil m hm fuel (pos + 1) rest
      (fun x hx => h x (List.mem_cons_of_mem c hx))

theorem finditerMathInline_eq_nil :
    ∀ (fuel : Nat) (prev : Option Char) (pos : Nat) (l : Str),
      (∀ c ∈ l, ¬ c = '$') → finditerMathInline fuel prev pos l = []
  | 0, _, _, _, _ => rfl
  | _ + 1, _, _, [], _ => rfl
  | fuel + 1, prev, pos, c :: rest, h => by
    rw [finditerMathInline, matchMathInlineAt_gate prev c rest (h c (List.mem_cons_self c rest))]
    exact finditerMathInline_eq_nil fuel (some c) (pos + 1) rest
      (fun x hx => h x (List.mem_cons_of_mem c hx))

/-- With neither `\` nor `$` in the text, no inline pattern matches. -/
theorem collectElements_eq_nil (t : Str) (h : ∀ c ∈ t, ¬ c = '\\' ∧ ¬ c = '$') :
    collectElements t = [] := by
  rw [collectElements,
    finditerWith_eq_nil matchMathDisplayAt
      (fun c t2 _ h2 => matchMathDisplayAt_gate c t2 h2) _ _ t h,
    finditerMathInline_eq_nil _ none _ t (fun c hc => (h c hc).2),
    finditerWith_eq_nil (matchDelim2At '\\' '[' '\\' ']')
      (fun c t2 h1 _ => matchDelim2At_gate '[' '\\' ']' c t2 h1) _ _ t h,
    finditerWith_eq_nil (matchDelim2At '\\' '(' '\\' ')')
      (fun c t2 h1 _ => matchDelim2At_gate '(' '\\' ')' c t2 h1) _ _ t h,
    finditerWith_eq_nil (matchCmdAt textbfCmd)
      (fun c t2 h1 _ => matchCmdAt_gate (textbfCmd.drop 1) c t2 h1) _ _ t h,
    finditerWith_eq_nil (matchCmdAt textitCmd)
      (fun c t2 h1 _ => matchCmdAt_gate (textitCmd.drop 1) c t2 h1) _ _ t h,
    finditerWith_eq_nil (matchCmdAt textttCmd)
      (fun c t2 h1 _ => matchCmdAt_gate (textttCmd.drop 1) c t2 h1) _ _ t h,
    finditerWith_eq_nil matchHrefAt
      (fun c t2 h1 _ => matchHrefAt_gate c t2 h1) _ _ t h]
  rfl

/-- `_parse_paragraph` on plain, already-stripped text: one `TEXT` child. -/
theorem parseParagraph_plain (t : Str) (h : ∀ c ∈ t, ¬ c = '\\' ∧ ¬ c = '$')
    (hne : t ≠ []) (hst : strip t = t) :
    parseParagraph t = ASTNode.mk .PARAGRAPH .nil [leaf .TEXT t] none none none := by
  have hb : buildInline t [] 0 = [leaf .TEXT t] := by
    simp only [buildInline, List.drop_zero]
    rw [if_pos (List.length_pos.mpr hne), hst,
      if_neg (by simpa [List.isEmpty_iff] using hne)]
  rw [parseParagraph, collectElements_eq_nil t h]
  show ASTNode.mk .PARAGRAPH .nil
      (if (buildInline t [] 0).isEmpty && !(strip t).isEmpty then [leaf .TEXT t]
       else buildInline t [] 0) none none none = _
  rw [hb]
  rfl

end Latex2Notion

namespace Latex2Notion

/-- `parse` on a single plain line: exactly one paragraph child whose only
inline child is the stripped text. -/
theorem parse_plain_single (s : Str)
    (h : ∀ c ∈ s, ¬ c = '\\' ∧ ¬ c = '$' ∧ ¬ c = '\n')
    (hne : strip s ≠ []) :
    (parse s).children
      = [ASTNode.mk .PARAGRAPH .nil [leaf .TEXT (strip s)] none none none] := by
  have hnn : '\n' ∉ s := fun hm => (h _ hm).2.2 rfl
  have hnb : '\\' ∉ strip s := fun hm => (h _ (mem_of_mem_strip hm)).1 rfl
  have hsplit : splitLines s = [s] := splitOnChar_eq_single '\n' s hnn
  have hsec : searchCmd sectionCmd (strip s) = none := searchCmd_eq_none sectionCmd rfl _ hnb
  have hsub : searchCmd subsectionCmd (strip s) = none :=
    searchCmd_eq_none subsectionCmd rfl _ hnb
  have hssub : searchCmd subsubsectionCmd (strip s) = none :=
    searchCmd_eq_none subsubsectionCmd rfl _ hnb
  have hbeg : searchCmd beginCmd (strip s) = none := searchCmd_eq_none beginCmd rfl _ hnb
  have hpp : parseParagraph (strip s)
      = ASTNode.mk .PARAGRAPH .nil [leaf .TEXT (strip s)] none none none :=
    parseParagraph_plain (strip s)
      (fun c hc => ⟨(h c (mem_of_mem_strip hc)).1, (h c (mem_of_mem_strip hc)).2.1⟩)
      hne (strip_idem s)
  show parseLoop (splitLines s) ((splitLines s).length + 1) 0 = _
  rw [hsplit]
  show parseLoop [s] 2 0 = _
  rw [parseLoop]
  simp only [List.length_singleton, Nat.zero_lt_one, if_true]
  show (let line := strip s;
    if line.isEmpty = true then parseLoop [s] 1 1
    else
      match searchCmd sectionCmd line with
      | some t => leaf .SECTION t :: parseLoop [s] 1 1
      | none =>
      match searchCmd subsectionCmd line with
      | some t => leaf .SUBSECTION t :: parseLoop [s] 1 1
      | none =>
      match searchCmd subsubsectionCmd line with
      | some t => leaf .SUBSUBSECTION t :: parseLoop [s] 1 1
      | none =>
      match searchCmd beginCmd line with
      | some envName =>
        let envNode := parseEnvironment 0 envName [s]
        envNode :: parseLoop [s] 1 ((envNode.endLine.getD 1) + 1)
      | none =>
        let p := parseParagraph line
        (if p.children.isEmpty then [] else [p]) ++ parseLoop [s] 1 1) = _
  simp only [hsec, hsub, hssub, hbeg, hpp,
    if_neg (show ¬ ((strip s).isEmpty = true) by simpa [List.isEmpty_iff] using hne)]
  rfl

/-- The dispatch renders the single plain paragraph to its text. -/
theorem convertDoc_single_para (t : Str) (hne : t ≠ []) :
    convertDoc 0 (ASTNode.mk .DOCUMENT .nil
      [ASTNode.mk .PARAGRAPH .nil [leaf .TEXT t] none none none] none none none) = t := by
  have hcv : convertNode 0 (ASTNode.mk .PARAGRAPH .nil [leaf .TEXT t] none none none) = t := by
    show t ++ [] = t
    exact List.append_nil t
  show joinWith ('\n' :: '\n' :: [])
      (List.filterMap
        (fun child =>
          let b := convertNode 0 child
          if b.isEmpty then none else some b)
        [ASTNode.mk .PARAGRAPH .nil [leaf .TEXT t] none none none]) = t
  have hg : (fun (child : ASTNode) =>
        let b := convertNode 0 child
        if b.isEmpty then none else some b)
      (ASTNode.mk .PARAGRAPH .nil [leaf .TEXT t] none none none) = some t := by
    show (if (convertNode 0 (ASTNode.mk .PARAGRAPH .nil [leaf .TEXT t] none none none)).isEmpty
        then none
        else some (convertNode 0 (ASTNode.mk .PARAGRAPH .nil [leaf .TEXT t] none none none)))
      = some t
    rw [hcv, if_neg (by simpa [List.isEmpty_iff] using hne)]
  simp only [List.filterMap_cons, hg, List.filterMap_nil]
  rfl

/-- C1 (amended): a single-line input (no newline) with no LaTeX-significant
character (`\`, `$`, `%`) and not whitespace-only converts to exactly one
paragraph block equal to the trimmed input. -/
theorem plain_single_line_round_trip (s : Str)
    (h : ∀ c ∈ s, ¬ c = '\\' ∧ ¬ c = '$' ∧ ¬ c = '\n' ∧ ¬ c = '%')
    (hne : strip s ≠ []) :
    convert s 0 false = strip s
    ∧ (parse s).children
      = [ASTNode.mk .PARAGRAPH .nil [leaf .TEXT (strip s)] none none none] := by
  have hp := parse_plain_single s (fun c hc => ⟨(h c hc).1, (h c hc).2.1, (h c hc).2.2.1⟩) hne
  refine ⟨?_, hp⟩
  have hsc : stripComments s = s :=
    stripComments_eq_self s (fun hm => (h _ hm).2.2.2 rfl) (fun hm => (h _ hm).2.2.1 rfl)
  have hnode : parse s = ASTNode.mk .DOCUMENT .nil
      [ASTNode.mk .PARAGRAPH .nil [leaf .TEXT (strip s)] none none none] none none none := by
    rw [← hp]
    rfl
  show convertDoc 0 (parse (stripComments s)) = strip s
  rw [hsc, hnode]
  exact convertDoc_single_para (strip s) hne

theorem plain_single_line_round_trip_witness :
    convert ("  hi there  ".toList) 0 false = strip ("  hi there  ".toList)
    ∧ (parse ("  hi there  ".toList)).children
      = [ASTNode.mk .PARAGRAPH .nil
          [leaf .TEXT (strip ("  hi there  ".toList))] none none none] :=
  plain_single_line_round_trip ("  hi there  ".toList) (by decide) (by decide)

/-- C1 (counterexample to the claim as stated): `"a\nb"` contains no LaTeX
construct and is not whitespace-only, yet conversion yields two paragraph
blocks (`"a\n\nb"`), not one block equal to the trimmed input. -/
theorem multiline_plain_text_counterexample :
    (∀ c ∈ ("a\nb".toList), ¬ c = '\\' ∧ ¬ c = '$' ∧ ¬ c = '%')
    ∧ strip ("a\nb".toList) ≠ []
    ∧ (parse ("a\nb".toList)).children.length = 2
    ∧ convert ("a\nb".toList) 0 false = "a\n\nb".toList
    ∧ ¬ convert ("a\nb".toList) 0 false = strip ("a\nb".toList) := by
  exact ⟨by decide, by decide, rfl, rfl, by decide⟩

end Latex2Notion

namespace Latex2Notion

/-! ## C9: tree-shape invariant -/


end Latex2Notion

namespace Latex2Notion

theorem okB_unfold (ty : NodeType) (content : Content) (ch : List ASTNode)
    (u : Option Str) (e : Option Nat) (en : Option Str) :
    okB (ASTNode.mk ty content ch u e en)
      = (ch.all (fun c =>
          ((!(c.nodeType == NodeType.LIST_ITEM))
              || (ty == NodeType.LIST_ITEMIZE || ty == NodeType.LIST_ENUMERATE))
            && ((!(isRowNode c)) || ty == NodeType.TABLE)
            && ((!(ty == NodeType.TABLE)) || (isRowNode c && c.children.isEmpty)))
          && ch.attach.all (fun c => okB c.1)) := by
  rw [okB]

theorem okB_intro (ty : NodeType) (content : Content) (ch : List ASTNode)
    (u : Option Str) (e : Option Nat) (en : Option Str)
    (hchecks : ∀ c ∈ ch,
      (c.nodeType = NodeType.LIST_ITEM →
        ty = NodeType.LIST_ITEMIZE ∨ ty = NodeType.LIST_ENUMERATE)
      ∧ (isRowNode c = true → ty = NodeType.TABLE)
      ∧ (ty = NodeType.TABLE → isRowNode c = true ∧ c.children = []))
    (hrec : ∀ c ∈ ch, okB c = true) :
    okB (ASTNode.mk ty content ch u e en) = true := by
  rw [okB_unfold, Bool.and_eq_true, List.all_eq_true, List.all_eq_true]
  constructor
  · intro c hc
    obtain ⟨ha, hb, hcc⟩ := hchecks c hc
    simp only [Bool.and_eq_true, Bool.or_eq_true, Bool.not_eq_true', beq_iff_eq,
      beq_eq_false_iff_ne, ne_eq, List.isEmpty_iff]
    refine ⟨⟨?_, ?_⟩, ?_⟩
    · by_cases h : c.nodeType = NodeType.LIST_ITEM
      · exact Or.inr (ha h)
      · exact Or.inl h
    · by_cases h : isRowNode c = true
      · exact Or.inr (hb h)
      · exact Or.inl (by simpa using h)
    · by_cases h : ty = NodeType.TABLE
      · exact Or.inr ⟨(hcc h).1, (hcc h).2⟩
      · exact Or.inl h
  · intro x _
    exact hrec x.1 x.2

theorem okB_of_children_nil (ty : NodeType) (content : Content)
    (u : Option Str) (e : Option Nat) (en : Option Str) :
    okB (ASTNode.mk ty content [] u e en) = true := by
  rw [okB_unfold]
  rfl

theorem okB_of_no_children (c : ASTNode) (h : c.children = []) : okB c = true := by
  cases c with
  | mk ty content ch u e en =>
    have hch : ch = [] := h
    subst hch
    exact okB_of_children_nil ty content u e en

end Latex2Notion

namespace Latex2Notion

theorem elemNode_shape (e : Elem) :
    (elemNode e).children = [] ∧ isRowNode (elemNode e) = false
      ∧ ¬ (elemNode e).nodeType = NodeType.LIST_ITEM := by
  cases e with
  | mk tag start stop payload url => cases tag <;> exact ⟨rfl, rfl, fun h => nomatch h⟩

theorem buildInline_shape (text : Str) :
    ∀ (es : List Elem) (pos : Nat), ∀ c ∈ buildInline text es pos,
      c.children = [] ∧ isRowNode c = false ∧ ¬ c.nodeType = NodeType.LIST_ITEM
  | [], pos, c, hc => by
    simp only [buildInline] at hc
    split at hc
    · split at hc
      · exact absurd hc (List.not_mem_nil c)
      · obtain rfl := List.mem_singleton.mp hc
        exact ⟨rfl, rfl, fun h => nomatch h⟩
    · exact absurd hc (List.not_mem_nil c)
  | e :: es, pos, c, hc => by
    simp only [buildInline] at hc
    rcases List.mem_append.mp hc with h1 | h1
    · split at h1
      · split at h1
        · exact absurd h1 (List.not_mem_nil c)
        · obtain rfl := List.mem_singleton.mp h1
          exact ⟨rfl, rfl, fun h => nomatch h⟩
      · exact absurd h1 (List.not_mem_nil c)
    · rcases List.mem_cons.mp h1 with rfl | h2
      · exact elemNode_shape e
      · exact buildInline_shape text es e.stop c h2

theorem parseParagraph_children_shape (t : Str) :
    ∀ c ∈ (parseParagraph t).children,
      c.children = [] ∧ isRowNode c = false ∧ ¬ c.nodeType = NodeType.LIST_ITEM := by
  intro c hc
  simp only [parseParagraph, ASTNode.children] at hc
  split at hc
  · obtain rfl := List.mem_singleton.mp hc
    exact ⟨rfl, rfl, fun h => nomatch h⟩
  · exact buildInline_shape t _ 0 c hc

theorem okB_of_inline_children (ty : NodeType) (content : Content) (ch : List ASTNode)
    (u : Option Str) (e : Option Nat) (en : Option Str) (hty : ¬ ty = NodeType.TABLE)
    (h : ∀ c ∈ ch, c.children = [] ∧ isRowNode c = false ∧ ¬ c.nodeType = NodeType.LIST_ITEM) :
    okB (ASTNode.mk ty content ch u e en) = true := by
  apply okB_intro
  · intro c hc
    obtain ⟨h1, h2, h3⟩ := h c hc
    exact ⟨fun hli => absurd hli h3, fun hrow => absurd hrow (by simp [h2]),
      fun htab => absurd htab hty⟩
  · intro c hc
    exact okB_of_no_children c (h c hc).1

end Latex2Notion

namespace Latex2Notion

theorem itemFlush_shape : ∀ (cur : List Str), ∀ n ∈ itemFlush cur,
    n.nodeType = NodeType.LIST_ITEM ∧ isRowNode n = false ∧ okB n = true
  | [], n, hn => absurd hn (List.not_mem_nil n)
  | l :: ls, n, hn => by
    simp only [itemFlush] at hn
    split at hn
    · exact absurd hn (List.not_mem_nil n)
    · obtain rfl := List.mem_singleton.mp hn
      refine ⟨rfl, rfl, ?_⟩
      exact okB_of_inline_children NodeType.LIST_ITEM Content.nil
        (parseParagraph (strip (joinLines (l :: ls)))).children none none none
        (fun h => nomatch h) (parseParagraph_children_shape _)

theorem parseListItemsGo_shape :
    ∀ (ls cur : List Str), ∀ n ∈ parseListItemsGo ls cur,
      n.nodeType = NodeType.LIST_ITEM ∧ isRowNode n = false ∧ okB n = true
  | [], cur, n, hn => itemFlush_shape cur n hn
  | l :: rest, cur, n, hn => by
    simp only [parseListItemsGo] at hn
    split at hn
    · rcases List.mem_append.mp hn with h1 | h1
      · exact itemFlush_shape cur n h1
      · exact parseListItemsGo_shape rest _ n h1
    · exact parseListItemsGo_shape rest (cur ++ [l]) n hn

theorem parseTable_shape (content : Str) :
    ∀ n ∈ parseTable content,
      isRowNode n = true ∧ n.children = [] ∧ ¬ n.nodeType = NodeType.LIST_ITEM := by
  intro n hn
  rw [parseTable, List.mem_filterMap] at hn
  obtain ⟨line, _, hsome⟩ := hn
  split at hsome
  · obtain rfl := Option.some.injEq .. ▸ hsome
    exact ⟨rfl, rfl, fun h => nomatch h⟩
  · exact absurd hsome (by simp)

theorem envMap_ne_item (name : Str) : ¬ envMap name = NodeType.LIST_ITEM := by
  simp only [envMap]
  split_ifs <;> decide

end Latex2Notion

namespace Latex2Notion

theorem okB_list_node (ty2 : NodeType) (content2 : Content) (u2 : Option Str)
    (e2 : Option Nat) (en2 : Option Str) (items : List ASTNode)
    (hty : ty2 = NodeType.LIST_ITEMIZE ∨ ty2 = NodeType.LIST_ENUMERATE)
    (hitems : ∀ n ∈ items, n.nodeType = NodeType.LIST_ITEM ∧ isRowNode n = false ∧ okB n = true) :
    okB (ASTNode.mk ty2 content2 items u2 e2 en2) = true := by
  apply okB_intro
  · intro c hc
    refine ⟨fun _ => hty, fun hrow => absurd hrow (by simp [(hitems c hc).2.1]),
      fun htab => absurd htab (by rcases hty with rfl | rfl <;> decide)⟩
  · intro c hc
    exact (hitems c hc).2.2

theorem okB_table_node (content2 : Content) (u2 : Option Str)
    (e2 : Option Nat) (en2 : Option Str) (rows : List ASTNode)
    (hrows : ∀ n ∈ rows, isRowNode n = true ∧ n.children = [] ∧ ¬ n.nodeType = NodeType.LIST_ITEM) :
    okB (ASTNode.mk NodeType.TABLE content2 rows u2 e2 en2) = true := by
  apply okB_intro
  · intro c hc
    exact ⟨fun hli => absurd hli (hrows c hc).2.2, fun _ => rfl,
      fun _ => ⟨(hrows c hc).1, (hrows c hc).2.1⟩⟩
  · intro c hc
    exact okB_of_no_children c (hrows c hc).2.1

theorem parseEnvironment_shape (startLine : Nat) (envName : Str) (lines : List Str) :
    okB (parseEnvironment startLine envName lines) = true
    ∧ isRowNode (parseEnvironment startLine envName lines) = false
    ∧ ¬ (parseEnvironment startLine envName lines).nodeType = NodeType.LIST_ITEM := by
  refine ⟨?_, rfl, envMap_ne_item envName⟩
  by_cases hi : envName = itemizeName
  · subst hi
    exact okB_list_node NodeType.LIST_ITEMIZE _ _ _ _ _ (Or.inl rfl)
      (fun n hn => parseListItemsGo_shape _ _ n hn)
  · by_cases he : envName = enumerateName
    · subst he
      exact okB_list_node NodeType.LIST_ENUMERATE _ _ _ _ _ (Or.inr rfl)
        (fun n hn => parseListItemsGo_shape _ _ n hn)
    · by_cases ht : envName = tableName
      · subst ht
        exact okB_table_node _ _ _ _ _ (fun n hn => parseTable_shape _ n hn)
      · by_cases hb : envName = tabularName
        · subst hb
          exact okB_table_node _ _ _ _ _ (fun n hn => parseTable_shape _ n hn)
        · have c1 : (decide (envName = itemizeName) || decide (envName = enumerateName)) = false := by
            simp [hi, he]
          have c2 : (decide (envName = tableName) || decide (envName = tabularName)) = false := by
            simp [ht, hb]
          simp only [parseEnvironment, c1, c2, Bool.false_eq_true, if_false]
          exact okB_of_children_nil _ _ _ _ _

end Latex2Notion

namespace Latex2Notion

theorem okB_of_inline_children_node (n : ASTNode) (hty : ¬ n.nodeType = NodeType.TABLE)
    (h : ∀ c ∈ n.children,
      c.children = [] ∧ isRowNode c = false ∧ ¬ c.nodeType = NodeType.LIST_ITEM) :
    okB n = true := by
  cases n with
  | mk ty content ch u e en => exact okB_of_inline_children ty content ch u e en hty h

theorem parseLoop_nodes_shape (lines : List Str) :
    ∀ (fuel i : Nat), ∀ c ∈ parseLoop lines fuel i,
      okB c = true ∧ ¬ c.nodeType = NodeType.LIST_ITEM ∧ isRowNode c = false
  | 0, i, c, hc => absurd hc (List.not_mem_nil c)
  | fuel + 1, i, c, hc => by
    simp only [parseLoop] at hc
    split at hc
    · split at hc
      · exact parseLoop_nodes_shape lines fuel (i + 1) c hc
      · split at hc
        · rcases List.mem_cons.mp hc with rfl | h2
          · exact ⟨okB_of_no_children _ rfl,
              (by decide : ¬ NodeType.SECTION = NodeType.LIST_ITEM), rfl⟩
          · exact parseLoop_nodes_shape lines fuel (i + 1) c h2
        · split at hc
          · rcases List.mem_cons.mp hc with rfl | h2
            · exact ⟨okB_of_no_children _ rfl,
                (by decide : ¬ NodeType.SUBSECTION = NodeType.LIST_ITEM), rfl⟩
            · exact parseLoop_nodes_shape lines fuel (i + 1) c h2
          · split at hc
            · rcases List.mem_cons.mp hc with rfl | h2
              · exact ⟨okB_of_no_children _ rfl,
                  (by decide : ¬ NodeType.SUBSUBSECTION = NodeType.LIST_ITEM), rfl⟩
              · exact parseLoop_nodes_shape lines fuel (i + 1) c h2
            · split at hc
              · rcases List.mem_cons.mp hc with rfl | h2
                · exact ⟨(parseEnvironment_shape i _ lines).1,
                    (parseEnvironment_shape i _ lines).2.2,
                    (parseEnvironment_shape i _ lines).2.1⟩
                · exact parseLoop_nodes_shape lines fuel _ c h2
              · rcases List.mem_append.mp hc with h1 | h2
                · split at h1
                  · exact absurd h1 (List.not_mem_nil c)
                  · obtain rfl := List.mem_singleton.mp h1
                    exact ⟨okB_of_inline_children_node _
                        ((by decide : ¬ NodeType.PARAGRAPH = NodeType.TABLE) :
                          ¬ (parseParagraph (strip (lines.getD i []))).nodeType = NodeType.TABLE)
                        (parseParagraph_children_shape _),
                      (by decide : ¬ NodeType.PARAGRAPH = NodeType.LIST_ITEM), rfl⟩
                · exact parseLoop_nodes_shape lines fuel (i + 1) c h2
    · exact absurd hc (List.not_mem_nil c)

/-- C9: every tree produced by `parse` is rooted at a `DOCUMENT` node and
satisfies the invariant: `LIST_ITEM` nodes appear only as direct children of
`LIST_ITEMIZE`/`LIST_ENUMERATE` nodes, table-row nodes (cell-list content)
appear only as direct children of `TABLE` nodes, and every child of a
`TABLE` node carries its content as a cell sequence and has no children. -/
theorem parse_tree_invariant (s : Str) :
    (parse s).nodeType = NodeType.DOCUMENT ∧ okB (parse s) = true := by
  refine ⟨rfl, ?_⟩
  apply okB_intro
  · intro c hc
    have h := parseLoop_nodes_shape (splitLines s) ((splitLines s).length + 1) 0 c hc
    exact ⟨fun hli => absurd hli h.2.1, fun hrow => absurd hrow (by simp [h.2.2]),
      fun htab => absurd htab (by decide : ¬ NodeType.DOCUMENT = NodeType.TABLE)⟩
  · intro c hc
    exact (parseLoop_nodes_shape (splitLines s) ((splitLines s).length + 1) 0 c hc).1

end Latex2Notion
